import Mathlib

/-!
Shallow embedding of the car-physics core (`src/lib.rs`) of the `carphys`
repository.  Scalars of the Rust code (`f32`) are modelled as exact rationals
(`ℚ`); the single-precision constant `std::f32::consts::PI` is kept at its
exact rounded value `13176795 / 4194304`.  The Euclidean norm
`Vec2::length`, whose value is irrational in general, is handled by phrasing
the per-tick update as a step relation that characterises the stored speed by
`0 ≤ s ∧ s * s = ‖v‖²`.  The one place where IEEE NaN semantics matter (the
brake-stop guard, which tests `Vec2::is_nan`) is additionally embedded over a
scalar type with an explicit NaN value.
-/

namespace Carphys

/-- The exact rational value of the 32-bit float constant
`std::f32::consts::PI` used by the source (`3.1415927410125732421875`). -/
def PI32 : ℚ := 13176795 / 4194304

/-- Component-wise addition of 2-D vectors (`Vec2 + Vec2`). -/
def vadd (a b : ℚ × ℚ) : ℚ × ℚ := (a.1 + b.1, a.2 + b.2)

/-- Scalar multiplication of a 2-D vector (`f32 * Vec2`). -/
def vsmul (k : ℚ) (a : ℚ × ℚ) : ℚ × ℚ := (k * a.1, k * a.2)

/-- Dot product of 2-D vectors.  The source condition
`velocity.angle_between(direction).abs() > PI / 2.0` on finite vectors is
equivalent to `dot velocity direction < 0` (the unsigned angle between two
vectors exceeds a right angle exactly when their dot product is negative,
and a zero vector yields angle 0 and dot 0). -/
def vdot (a b : ℚ × ℚ) : ℚ := a.1 * b.1 + a.2 * b.2

/-- Squared Euclidean norm of a 2-D vector. -/
def sqnorm (a : ℚ × ℚ) : ℚ := a.1 * a.1 + a.2 * a.2

/-- The model of the car, defining constants (struct `Model` in `lib.rs`). -/
structure Model where
  drag : ℚ
  rolling_resistance : ℚ
  mass : ℚ
  differential_ratio : ℚ
  gear_ratios : List ℚ
  wheel_radius : ℚ
  transmission_efficiency : ℚ
  engine_torque : List (ℚ × ℚ)
  brakes : ℚ
deriving DecidableEq

/-- Minimum engine RPM: `self.engine_torque[0].0`.  The source indexes an
assumed-nonempty table; on the empty table we return the junk value 0. -/
def min_rpm (m : Model) : ℚ := (m.engine_torque.headI).1

/-- One step of the fold performed by Rust `Iterator::max_by` with comparison
on the torque component: `cmp::max_by` keeps the accumulator only when it
compares strictly greater, and returns the second argument on ties. -/
def maxByStep (acc p : ℚ × ℚ) : ℚ × ℚ := if p.2 < acc.2 then acc else p

/-- The torque-curve point selected by
`engine_torque.iter().max_by(|r0, r1| r0.1.partial_cmp(&r1.1).unwrap())`.
On the empty table (where the source would panic on `unwrap`) we return the
junk point (0, 0). -/
def best_point (m : Model) : ℚ × ℚ :=
  match m.engine_torque with
  | [] => (0, 0)
  | p :: ps => ps.foldl maxByStep p

/-- Best engine RPM for torque: `best_rpm` in `lib.rs`. -/
def best_rpm (m : Model) : ℚ := (best_point m).1

/-- Tail of the lookup loop of `lookup_torque`: `prev` is the table entry at
index `ix - 1`, the list argument is the remaining entries from index `ix`
on.  At each entry: an exact rpm hit returns the stored torque; an entry
whose rpm exceeds the query (reached only with `ix > 0`, hence with a `prev`)
returns the interpolation between `prev` and that entry; otherwise the loop
advances.  Falling off the end returns 0.0 as in the source. -/
def lookupGo (q : ℚ) (prev : ℚ × ℚ) : List (ℚ × ℚ) → ℚ
  | [] => 0
  | (rpm, torque) :: rest =>
    if rpm = q then torque
    else if q < rpm then
      (prev.2 * (rpm - q) + torque * (q - prev.1)) / (rpm - prev.1)
    else lookupGo q (rpm, torque) rest

/-- `lookup_torque` of `lib.rs`, taking the model torque table directly.
The first iteration (`ix = 0`) can only return on an exact hit, because the
interpolation branch requires `ix > 0`; afterwards the loop proceeds with the
head as the first previous entry. -/
def lookup_torque (curve : List (ℚ × ℚ)) (q : ℚ) : ℚ :=
  match curve with
  | [] => 0
  | (rpm, torque) :: rest =>
    if rpm = q then torque else lookupGo q (rpm, torque) rest

/-- Specs for a Corvette C5 (`CORVETTE` in `lib.rs`), with every `f32`
literal taken at its exact decimal value. -/
def CORVETTE : Model where
  drag := 4257 / 10000
  rolling_resistance := 128 / 10
  mass := 1500
  differential_ratio := 342 / 100
  gear_ratios := [266 / 100, 178 / 100, 130 / 100, 1, 74 / 100, 1 / 2]
  wheel_radius := 33 / 100
  transmission_efficiency := 7 / 10
  engine_torque := [(1000, 450), (1500, 480), (3000, 490), (5000, 500), (5800, 450)]
  brakes := 12000

/-- An actual moving car (struct `Car` in `lib.rs`).  `speeds` keeps track of
the speeds at which the car geared up, from 2nd gear upward. -/
structure Car where
  direction : ℚ × ℚ
  velocity : ℚ × ℚ
  speed : ℚ
  throttle : ℚ
  gear : ℕ
  rpm : ℚ
  speeds : List ℚ
deriving DecidableEq

/-- Angular speed of the wheels (`wheel_speed` in `lib.rs`). -/
def wheel_speed (c : Car) (m : Model) : ℚ := c.speed / m.wheel_radius

/-- Engine rpm based on the current wheel speed (`engine_rpm` in `lib.rs`).
The source indexes `gear_ratios[gear - 1]`; we use `getD` with junk default 0
for the out-of-range case where the source would panic. -/
def engine_rpm (c : Car) (m : Model) (ws : ℚ) : ℚ :=
  ws * m.gear_ratios.getD (c.gear - 1) 0 * m.differential_ratio * 60 / (2 * PI32)

/-- The rpm-refresh / clamp / upshift phase of `update_velocity`
(lines 150-173): recompute rpm from wheel speed, clamp it below to
`min_rpm`, and if it reached `best_rpm` with a higher gear available,
upshift, reset rpm to `min_rpm` and record the pre-shift speed. -/
def shift_phase (m : Model) (c : Car) : Car :=
  let rpm1 := engine_rpm c m (wheel_speed c m)
  if rpm1 < min_rpm m then { c with rpm := min_rpm m }
  else if best_rpm m ≤ rpm1 ∧ c.gear < m.gear_ratios.length then
    let g := c.gear + 1
    let speeds1 :=
      if 1 < g then
        if c.speeds.length < g - 1 then c.speeds ++ [c.speed]
        else c.speeds.set (g - 2) c.speed
      else c.speeds
    { c with rpm := min_rpm m, gear := g, speeds := speeds1 }
  else { c with rpm := rpm1 }

/-- The force applied by the player (lines 175-193 of `update_velocity`),
computed from the state after the shift phase: engine traction when
`throttle > 0` (querying the torque table at the current rpm), brake force
when `throttle < 0`, zero otherwise. -/
def control_force (m : Model) (c : Car) : ℚ × ℚ :=
  if 0 < c.throttle then
    vsmul
      (lookup_torque m.engine_torque c.rpm * c.throttle *
        m.gear_ratios.getD (c.gear - 1) 0 * m.differential_ratio *
        m.transmission_efficiency / m.wheel_radius)
      c.direction
  else if c.throttle < 0 then vsmul (c.throttle * m.brakes) c.direction
  else (0, 0)

/-- The integrated velocity (lines 195-205 of `update_velocity`): add drag
and rolling resistance to the control force, divide by mass and integrate
over the tick duration `dt`. -/
def velocity_after (m : Model) (dt : ℚ) (c : Car) : ℚ × ℚ :=
  let control := control_force m c
  let drg := vsmul (-m.drag * c.speed) c.velocity
  let rolling := vsmul (-m.rolling_resistance) c.velocity
  let longitudinal := vadd control (vadd drg rolling)
  let acceleration := vsmul (1 / m.mass) longitudinal
  vadd c.velocity (vsmul dt acceleration)

/-- The braking-specific post-integration phase of `update_velocity`
(lines 210-229), on the exact-rational state where `is_nan` is always
false: when braking, either snap the state to stopped (speed zero, or the
velocity pointing more than 90 degrees away from the facing direction,
expressed by a negative dot product), or downshift when the speed fell
below the recorded upshift speed of the current gear. -/
def brake_phase (c : Car) : Car :=
  if c.throttle < 0 then
    if c.speed = 0 ∨ vdot c.velocity c.direction < 0 then
      { c with
        speed := 0
        velocity := (0, 0)
        throttle := if c.throttle < 0 then 0 else c.throttle
        gear := 1 }
    else if 1 < c.gear ∧ c.gear - 2 < c.speeds.length ∧
        c.speed < c.speeds.getD (c.gear - 2) 0 then
      { c with gear := c.gear - 1 }
    else c
  else c

/-- The state after the shift phase and velocity integration, given the
resolved value `s` of the new speed `‖velocity‖`. -/
def integrate (m : Model) (dt : ℚ) (c : Car) (s : ℚ) : Car :=
  let c2 := shift_phase m c
  { c2 with velocity := velocity_after m dt c2, speed := s }

/-- One tick of `update_velocity` as a step relation: the new speed is the
unique nonnegative rational whose square is the squared norm of the
integrated velocity (the source stores `velocity.length()`; phrasing it as
a characterisation keeps the embedding exact where the norm is rational). -/
def Step (m : Model) (dt : ℚ) (c cNext : Car) : Prop :=
  ∃ s, 0 ≤ s ∧ s * s = sqnorm (velocity_after m dt (shift_phase m c)) ∧
    cNext = brake_phase (integrate m dt c s)

/-- Throttle control intent (enum `Throttle` in `lib.rs`). -/
inductive Throttle where
  | Accelerate : Throttle
  | Brake : Throttle
  | Roll : Throttle
deriving DecidableEq

/-- The ramp step of `control_throttle` (lines 307-322): accelerate ramps up
from the nonnegative part of the throttle, brake ramps down from the
nonpositive part, roll snaps the throttle to zero. -/
def apply_throttle (intent : Throttle) (dt thr : ℚ) : ℚ :=
  match intent with
  | Throttle.Accelerate => min (max thr 0 + dt) 1
  | Throttle.Brake => max (min thr 0 - dt) (-1)
  | Throttle.Roll => 0

/-- The per-tick input snapshot read by `control_throttle`: the cursor
position when the left mouse button is pressed over the primary window (and
a cursor position is available), the pressed state of the up and down keys,
whether a gamepad is bound, and the pressed state of its two trigger
buttons. -/
structure InputSnapshot where
  cursor : Option (ℚ × ℚ)
  up : Bool
  down : Bool
  padBound : Bool
  padAccel : Bool
  padBrake : Bool
deriving DecidableEq

/-- The on-screen pedal regions of `control_throttle` (lines 260-268): a
click inside the brake rectangle or the accelerate rectangle produces the
matching intent. -/
def pedal_intent (pos : ℚ × ℚ) : Throttle :=
  if 515 ≤ pos.1 ∧ pos.1 ≤ 665 ∧ 40 ≤ pos.2 ∧ pos.2 ≤ 128 then Throttle.Brake
  else if 691 ≤ pos.1 ∧ pos.1 ≤ 758 ∧ 19 ≤ pos.2 ∧ pos.2 ≤ 152 then Throttle.Accelerate
  else Throttle.Roll

/-- The intent selection of `control_throttle` (lines 253-305): pedals
first, then (if still rolling) keyboard up/down guarded by the current
throttle not being saturated, then (if still rolling) the bound gamepad
triggers under the same guards. -/
def compute_intent (i : InputSnapshot) (thr : ℚ) : Throttle :=
  let t1 := match i.cursor with
    | some pos => pedal_intent pos
    | none => Throttle.Roll
  let t2 :=
    if t1 = Throttle.Roll then
      if i.up = true ∧ thr < 1 then Throttle.Accelerate
      else if i.down = true ∧ -1 < thr then Throttle.Brake
      else Throttle.Roll
    else t1
  if t2 = Throttle.Roll then
    if i.padBound = true then
      if i.padAccel = true ∧ thr < 1 then Throttle.Accelerate
      else if i.padBrake = true ∧ -1 < thr then Throttle.Brake
      else Throttle.Roll
    else Throttle.Roll
  else t2

/-- One full tick of `control_throttle`: compute the intent from the input
snapshot and the current throttle, then apply the ramp. -/
def control_throttle_tick (i : InputSnapshot) (dt thr : ℚ) : ℚ :=
  apply_throttle (compute_intent i thr) dt thr

/-- An `f32` scalar modelled with an explicit NaN value, used to embed the
brake-stop guard with IEEE comparison semantics (every comparison with NaN
is false). -/
inductive F32 where
  | nan : F32
  | fin : ℚ → F32
deriving DecidableEq

/-- IEEE `<` on the NaN-aware scalars: false whenever an operand is NaN. -/
def F32.blt : F32 → F32 → Bool
  | F32.fin a, F32.fin b => decide (a < b)
  | _, _ => false

/-- IEEE `==` on the NaN-aware scalars: false whenever an operand is NaN. -/
def F32.beq : F32 → F32 → Bool
  | F32.fin a, F32.fin b => decide (a = b)
  | _, _ => false

/-- NaN-propagating addition. -/
def F32.add : F32 → F32 → F32
  | F32.fin a, F32.fin b => F32.fin (a + b)
  | _, _ => F32.nan

/-- NaN-propagating multiplication. -/
def F32.mul : F32 → F32 → F32
  | F32.fin a, F32.fin b => F32.fin (a * b)
  | _, _ => F32.nan

/-- Dot product on NaN-aware 2-D vectors. -/
def dotF (a b : F32 × F32) : F32 := (a.1.mul b.1).add (a.2.mul b.2)

/-- The car state as seen by the brake-stop guard, with NaN-aware scalars
for the fields the guard compares. -/
structure CarF where
  direction : F32 × F32
  velocity : F32 × F32
  speed : F32
  throttle : F32
  gear : ℕ
  speeds : List F32
deriving DecidableEq

/-- `Vec2::is_nan`: true when any component is NaN. -/
def CarF.velNan (c : CarF) : Bool :=
  decide (c.velocity.1 = F32.nan) || decide (c.velocity.2 = F32.nan)

/-- The braking-specific post-integration phase of `update_velocity`
(lines 210-229) over the NaN-aware state, mirroring the source condition
`speed == 0.0 || (!velocity.is_nan() && angle_between(direction).abs() >
PI / 2)` (the angle test, reached only on non-NaN velocity, is expressed as
a negative dot product) and the downshift comparison with IEEE ordering. -/
def brake_phase_f32 (c : CarF) : CarF :=
  if c.throttle.blt (F32.fin 0) then
    if c.speed.beq (F32.fin 0) ||
        (!c.velNan && (dotF c.velocity c.direction).blt (F32.fin 0)) then
      { c with
        speed := F32.fin 0
        velocity := (F32.fin 0, F32.fin 0)
        throttle := if c.throttle.blt (F32.fin 0) then F32.fin 0 else c.throttle
        gear := 1 }
    else if decide (1 < c.gear) && decide (c.gear - 2 < c.speeds.length) &&
        c.speed.blt (c.speeds.getD (c.gear - 2) (F32.fin 0)) then
      { c with gear := c.gear - 1 }
    else c
  else c

end Carphys

namespace Carphys

/-! ### Lemmas about the torque-curve lookup loop -/

/-- An exact rpm hit inside the loop returns the stored torque, regardless
of the previous entry. -/
lemma lookupGo_mem (q t : ℚ) (prev : ℚ × ℚ) (l : List (ℚ × ℚ))
    (hs : List.Pairwise (fun a b => a.1 < b.1) l) (hm : (q, t) ∈ l) :
    lookupGo q prev l = t := by
  induction l generalizing prev with
  | nil => cases hm
  | cons p rest ih =>
    obtain ⟨r, u⟩ := p
    rw [List.pairwise_cons] at hs
    rcases List.mem_cons.mp hm with h | h
    · rw [Prod.mk.injEq] at h
      simp only [lookupGo]
      rw [if_pos h.1.symm]
      exact h.2.symm
    · have hrq : r < q := by simpa using hs.1 _ h
      simp only [lookupGo]
      rw [if_neg (by linarith), if_neg (by linarith)]
      exact ih _ hs.2 h

/-- Entries whose rpm is below the query are skipped by the loop; the
previous entry becomes the last of the skipped ones. -/
lemma lookupGo_append (q : ℚ) (prev : ℚ × ℚ) (pre rest : List (ℚ × ℚ))
    (h : ∀ p ∈ pre, p.1 < q) :
    lookupGo q prev (pre ++ rest) = lookupGo q (pre.getLastD prev) rest := by
  induction pre generalizing prev with
  | nil => rfl
  | cons p pre ih =>
    obtain ⟨r, u⟩ := p
    have hrq : r < q := by simpa using h (r, u) (List.mem_cons_self _ _)
    simp only [List.cons_append, lookupGo, List.getLastD_cons]
    rw [if_neg (by linarith), if_neg (by linarith)]
    exact ih _ fun p hp => h p (List.mem_cons_of_mem _ hp)

/-- At the first entry whose rpm exceeds the query the loop interpolates
between that entry and the previous one. -/
lemma lookupGo_bracket (q r0 t0 r1 t1 : ℚ) (post : List (ℚ × ℚ))
    (h0 : r0 < q) (h1 : q < r1) :
    lookupGo q (r0, t0) ((r1, t1) :: post)
      = (t0 * (r1 - q) + t1 * (q - r0)) / (r1 - r0) := by
  simp only [lookupGo]
  rw [if_neg (by linarith), if_pos h1]

/-- Exact table hits of `lookup_torque` return the stored torque. -/
lemma lookup_torque_mem (ps : List (ℚ × ℚ)) (q t : ℚ)
    (hs : List.Pairwise (fun a b => a.1 < b.1) ps) (hm : (q, t) ∈ ps) :
    lookup_torque ps q = t := by
  cases ps with
  | nil => cases hm
  | cons p rest =>
    obtain ⟨r, u⟩ := p
    rw [List.pairwise_cons] at hs
    rcases List.mem_cons.mp hm with h | h
    · rw [Prod.mk.injEq] at h
      simp only [lookup_torque]
      rw [if_pos h.1.symm]
      exact h.2.symm
    · have hrq : r < q := by simpa using hs.1 _ h
      simp only [lookup_torque]
      rw [if_neg (by linarith)]
      exact lookupGo_mem q t _ rest hs.2 h

/-- A query bracketed by two adjacent entries is answered by the
interpolation between them, in the form the source computes it. -/
lemma lookup_torque_bracket (pre post : List (ℚ × ℚ)) (r0 t0 r1 t1 q : ℚ)
    (hs : List.Pairwise (fun a b => a.1 < b.1) (pre ++ (r0, t0) :: (r1, t1) :: post))
    (h0 : r0 < q) (h1 : q < r1) :
    lookup_torque (pre ++ (r0, t0) :: (r1, t1) :: post) q
      = (t0 * (r1 - q) + t1 * (q - r0)) / (r1 - r0) := by
  have hpre : ∀ p ∈ pre, p.1 < q := by
    intro p hp
    have : p.1 < r0 := by
      have := (List.pairwise_append.mp hs).2.2 p hp (r0, t0) (by simp)
      simpa using this
    linarith
  cases pre with
  | nil => simp only [List.nil_append, lookup_torque]
           rw [if_neg (by linarith)]
           exact lookupGo_bracket q r0 t0 r1 t1 post h0 h1
  | cons a pre =>
    obtain ⟨ra, ua⟩ := a
    have hra : ra < q := by simpa using hpre (ra, ua) (List.mem_cons_self _ _)
    simp only [List.cons_append, lookup_torque]
    rw [if_neg (by linarith)]
    rw [show (pre ++ (r0, t0) :: (r1, t1) :: post)
        = (pre ++ [(r0, t0)]) ++ (r1, t1) :: post by simp]
    rw [lookupGo_append q (ra, ua) (pre ++ [(r0, t0)]) ((r1, t1) :: post)
      (by intro p hp
          rcases List.mem_append.mp hp with h | h
          · exact hpre p (List.mem_cons_of_mem _ h)
          · simp only [List.mem_singleton] at h
            rw [h]
            exact h0)]
    have hlast : (pre ++ [(r0, t0)]).getLastD (ra, ua) = (r0, t0) := by
      simp [List.getLastD_eq_getLast?, List.getLast?_append]
    rw [hlast]
    exact lookupGo_bracket q r0 t0 r1 t1 post h0 h1

/-- When every entry rpm is below the query, the loop falls through and
returns 0. -/
lemma lookupGo_zero (q : ℚ) (prev : ℚ × ℚ) (l : List (ℚ × ℚ))
    (h : ∀ p ∈ l, p.1 < q) : lookupGo q prev l = 0 := by
  induction l generalizing prev with
  | nil => rfl
  | cons p rest ih =>
    obtain ⟨r, u⟩ := p
    have hrq : r < q := by simpa using h (r, u) (List.mem_cons_self _ _)
    simp only [lookupGo]
    rw [if_neg (by linarith), if_neg (by linarith)]
    exact ih _ fun p hp => h p (List.mem_cons_of_mem _ hp)

/-- When every entry rpm is below the query, `lookup_torque` returns 0. -/
lemma lookup_torque_zero (ps : List (ℚ × ℚ)) (q : ℚ)
    (h : ∀ p ∈ ps, p.1 < q) : lookup_torque ps q = 0 := by
  cases ps with
  | nil => rfl
  | cons p rest =>
    obtain ⟨r, u⟩ := p
    have hrq : r < q := by simpa using h (r, u) (List.mem_cons_self _ _)
    simp only [lookup_torque]
    rw [if_neg (by linarith)]
    exact lookupGo_zero q _ rest fun p hp => h p (List.mem_cons_of_mem _ hp)

/-- In an rpm-ascending table every entry rpm is at most the last one. -/
lemma mem_rpm_le_getLast (ps : List (ℚ × ℚ)) (hne : ps ≠ [])
    (hs : List.Pairwise (fun a b => a.1 < b.1) ps) (p : ℚ × ℚ) (hp : p ∈ ps) :
    p.1 ≤ (ps.getLast hne).1 := by
  induction ps with
  | nil => cases hp
  | cons a rest ih =>
    rw [List.pairwise_cons] at hs
    cases rest with
    | nil =>
      simp only [List.mem_singleton] at hp
      rw [hp, List.getLast_singleton]
    | cons b rest2 =>
      rw [List.getLast_cons (by simp)]
      rcases List.mem_cons.mp hp with h | h
      · rw [h]
        have hmem := List.getLast_mem (l := b :: rest2) (by simp)
        exact le_of_lt (hs.1 _ hmem)
      · exact ih (by simp) hs.2 h

/-! ### C2 and C8: torque lookup behaviour -/

/-- C2: for every rpm-ascending torque curve, `lookup_torque` returns the
stored torque exactly at table points and the linear interpolation
`t0 + (t1 - t0) * (q - rpm0) / (rpm1 - rpm0)` between the adjacent points
bracketing the query; on the example curve it yields 450 at 1000, 462 at
1200, 1450/3 (that is, 483.3333...) at 2000 and 475 at 5400. -/
theorem c2_lookup_interpolation :
    (∀ (ps : List (ℚ × ℚ)) (q t : ℚ),
      List.Pairwise (fun a b => a.1 < b.1) ps → (q, t) ∈ ps →
      lookup_torque ps q = t) ∧
    (∀ (pre post : List (ℚ × ℚ)) (r0 t0 r1 t1 q : ℚ),
      List.Pairwise (fun a b => a.1 < b.1) (pre ++ (r0, t0) :: (r1, t1) :: post) →
      r0 < q → q < r1 →
      lookup_torque (pre ++ (r0, t0) :: (r1, t1) :: post) q
        = t0 + (t1 - t0) * (q - r0) / (r1 - r0)) ∧
    lookup_torque CORVETTE.engine_torque 1000 = 450 ∧
    lookup_torque CORVETTE.engine_torque 1200 = 462 ∧
    lookup_torque CORVETTE.engine_torque 2000 = 1450 / 3 ∧
    |lookup_torque CORVETTE.engine_torque 2000 - 4833333 / 10000| < 1 / 10000 ∧
    lookup_torque CORVETTE.engine_torque 5400 = 475 := by
  have hinterp : ∀ (pre post : List (ℚ × ℚ)) (r0 t0 r1 t1 q : ℚ),
      List.Pairwise (fun a b => a.1 < b.1) (pre ++ (r0, t0) :: (r1, t1) :: post) →
      r0 < q → q < r1 →
      lookup_torque (pre ++ (r0, t0) :: (r1, t1) :: post) q
        = t0 + (t1 - t0) * (q - r0) / (r1 - r0) := by
    intro pre post r0 t0 r1 t1 q hs h0 h1
    rw [lookup_torque_bracket pre post r0 t0 r1 t1 q hs h0 h1]
    have hne : r1 - r0 ≠ 0 := by linarith
    field_simp
    ring
  refine ⟨lookup_torque_mem, hinterp, ?_, ?_, ?_, ?_, ?_⟩
  · norm_num [CORVETTE, lookup_torque, lookupGo]
  · norm_num [CORVETTE, lookup_torque, lookupGo]
  · norm_num [CORVETTE, lookup_torque, lookupGo]
  · norm_num [CORVETTE, lookup_torque, lookupGo, abs_lt]
  · norm_num [CORVETTE, lookup_torque, lookupGo]

/-- Witness for C2: the interpolation branch evaluated on the example curve
between (1500, 480) and (3000, 490) at rpm 2000, and the exact-hit branch
at rpm 1500. -/
theorem c2_witness :
    lookup_torque [(1000, 450), (1500, 480), (3000, 490), (5000, 500), (5800, 450)] 2000
      = 480 + (490 - 480) * (2000 - 1500) / (3000 - 1500) ∧
    lookup_torque [(1000, 450), (1500, 480), (3000, 490), (5000, 500), (5800, 450)] 1500
      = 480 := by
  constructor
  · exact c2_lookup_interpolation.2.1 [(1000, 450)] [(5000, 500), (5800, 450)]
      1500 480 3000 490 2000 (by norm_num) (by norm_num) (by norm_num)
  · exact c2_lookup_interpolation.1 _ 1500 480 (by norm_num) (by norm_num)

/-- C8: outside the table domain of an rpm-ascending curve, `lookup_torque`
extrapolates linearly from the first two points for queries below the first
point (the loop reaches the second point, whose rpm exceeds the query, and
interpolates with the first), and falls through to 0 for queries above the
last point. -/
theorem c8_out_of_range :
    (∀ (rest : List (ℚ × ℚ)) (r0 t0 r1 t1 q : ℚ),
      List.Pairwise (fun a b => a.1 < b.1) ((r0, t0) :: (r1, t1) :: rest) →
      q < r0 →
      lookup_torque ((r0, t0) :: (r1, t1) :: rest) q
        = t0 + (t1 - t0) * (q - r0) / (r1 - r0)) ∧
    (∀ (ps : List (ℚ × ℚ)) (q : ℚ) (hne : ps ≠ []),
      List.Pairwise (fun a b => a.1 < b.1) ps →
      (ps.getLast hne).1 < q →
      lookup_torque ps q = 0) := by
  constructor
  · intro rest r0 t0 r1 t1 q hs hq
    have h01 : r0 < r1 := by
      rw [List.pairwise_cons] at hs
      simpa using hs.1 (r1, t1) (by simp)
    simp only [lookup_torque]
    rw [if_neg (by linarith)]
    simp only [lookupGo]
    rw [if_neg (by linarith), if_pos (by linarith)]
    have hne : r1 - r0 ≠ 0 := by linarith
    field_simp
    ring
  · intro ps q hne hs hq
    exact lookup_torque_zero ps q fun p hp =>
      lt_of_le_of_lt (mem_rpm_le_getLast ps hne hs p hp) hq

/-- Witness for C8: on the example curve, rpm 900 (below the first point)
extrapolates from the first two points to 444, and rpm 6000 (above the last
point) returns 0. -/
theorem c8_witness :
    lookup_torque [(1000, 450), (1500, 480), (3000, 490), (5000, 500), (5800, 450)] 900
      = 450 + (480 - 450) * (900 - 1000) / (1500 - 1000) ∧
    lookup_torque [(1000, 450), (1500, 480), (3000, 490), (5000, 500), (5800, 450)] 6000
      = 0 := by
  constructor
  · exact c8_out_of_range.1 [(3000, 490), (5000, 500), (5800, 450)]
      1000 450 1500 480 900 (by norm_num) (by norm_num)
  · exact c8_out_of_range.2 _ 6000 (by simp) (by norm_num) (by norm_num)

/-! ### C6: best_rpm tie-breaking -/

/-- The result of the max-by fold is one of the scanned entries. -/
lemma maxByFold_mem (p : ℚ × ℚ) (l : List (ℚ × ℚ)) :
    l.foldl maxByStep p ∈ p :: l := by
  induction l generalizing p with
  | nil => simp
  | cons x l ih =>
    simp only [List.foldl_cons]
    have h := ih (maxByStep p x)
    have hx : maxByStep p x = p ∨ maxByStep p x = x := by
      unfold maxByStep
      split
      · exact Or.inl rfl
      · exact Or.inr rfl
    rcases List.mem_cons.mp h with h1 | h1
    · rcases hx with h2 | h2 <;> rw [h1, h2] <;> simp
    · simp [h1]

/-- The result of the max-by fold has maximal torque among the scanned
entries. -/
lemma maxByFold_le (p : ℚ × ℚ) (l : List (ℚ × ℚ)) :
    ∀ y ∈ p :: l, y.2 ≤ (l.foldl maxByStep p).2 := by
  induction l generalizing p with
  | nil => simp
  | cons x l ih =>
    intro y hy
    simp only [List.foldl_cons]
    have hstep : p.2 ≤ (maxByStep p x).2 ∧ x.2 ≤ (maxByStep p x).2 := by
      unfold maxByStep
      split
      · exact ⟨le_refl _, le_of_lt (by assumption)⟩
      · exact ⟨le_of_not_lt (by assumption), le_refl _⟩
    have hhead := ih (maxByStep p x) (maxByStep p x) (List.mem_cons_self _ _)
    rcases List.mem_cons.mp hy with h1 | h1
    · rw [h1]; exact le_trans hstep.1 hhead
    · rcases List.mem_cons.mp h1 with h2 | h2
      · rw [h2]; exact le_trans hstep.2 hhead
      · exact ih (maxByStep p x) y (List.mem_cons_of_mem _ h2)

/-- On an rpm-ascending list the max-by fold keeps the latest entry among
those attaining the maximal torque: any entry with the same torque as the
result has an rpm at most the result rpm. -/
lemma maxByFold_last (p : ℚ × ℚ) (l : List (ℚ × ℚ))
    (hs : List.Pairwise (fun a b => a.1 < b.1) (p :: l)) :
    ∀ y ∈ p :: l, y.2 = (l.foldl maxByStep p).2 → y.1 ≤ (l.foldl maxByStep p).1 := by
  induction l generalizing p with
  | nil => intro y hy _; simp only [List.mem_singleton] at hy; simp [hy]
  | cons x l ih =>
    intro y hy heq
    rw [List.pairwise_cons] at hs
    simp only [List.foldl_cons] at heq ⊢
    by_cases hc : x.2 < p.2
    · have hfx : maxByStep p x = p := by unfold maxByStep; rw [if_pos hc]
      rw [hfx] at heq ⊢
      have hs2 : List.Pairwise (fun a b => a.1 < b.1) (p :: l) := by
        rw [List.pairwise_cons]
        rw [List.pairwise_cons] at hs
        exact ⟨fun b hb => hs.1 b (List.mem_cons_of_mem _ hb), hs.2.2⟩
      rcases List.mem_cons.mp hy with h1 | h1
      · exact ih p hs2 y (by simp [h1]) heq
      · rcases List.mem_cons.mp h1 with h2 | h2
        · exfalso
          have hple : p.2 ≤ (l.foldl maxByStep p).2 :=
            maxByFold_le p l p (List.mem_cons_self _ _)
          rw [h2] at heq
          linarith
        · exact ih p hs2 y (List.mem_cons_of_mem _ h2) heq
    · have hfx : maxByStep p x = x := by unfold maxByStep; rw [if_neg hc]
      rw [hfx] at heq ⊢
      rcases List.mem_cons.mp hy with h1 | h1
      · have hmem := maxByFold_mem x l
        have : p.1 < (l.foldl maxByStep x).1 := by
          rcases List.mem_cons.mp hmem with h2 | h2
          · rw [h2]; simpa using hs.1 x (List.mem_cons_self _ _)
          · exact hs.1 _ (List.mem_cons_of_mem _ h2)
        rw [h1]
        exact le_of_lt this
      · exact ih x hs.2 y h1 heq

/-- Counterexample input for C6: a torque curve whose maximum torque is
attained at two points. -/
def TIED : Model where
  drag := 0
  rolling_resistance := 0
  mass := 1
  differential_ratio := 1
  gear_ratios := [1]
  wheel_radius := 1
  transmission_efficiency := 1
  engine_torque := [(1000, 450), (2000, 450)]
  brakes := 0

/-- Counterexample for C6 as stated: on the curve
[(1000, 450), (2000, 450)] both points attain the maximal torque 450, and
`best_rpm` is 2000 — the rpm of the last such point, not of the first
(which the claim says it should be, namely 1000). -/
theorem c6_counterexample :
    best_rpm TIED = 2000 ∧ best_rpm TIED ≠ 1000 ∧
    (∀ y ∈ TIED.engine_torque, y.2 ≤ 450) ∧
    ((1000 : ℚ), (450 : ℚ)) ∈ TIED.engine_torque ∧
    ((2000 : ℚ), (450 : ℚ)) ∈ TIED.engine_torque := by
  refine ⟨by norm_num [best_rpm, best_point, TIED, maxByStep],
    by norm_num [best_rpm, best_point, TIED, maxByStep], ?_, by simp [TIED], by simp [TIED]⟩
  intro y hy
  simp only [TIED, List.mem_cons, List.mem_singleton] at hy
  rcases hy with h | h | h
  · rw [h]
  · rw [h]
  · cases h

/-- C6 (amended): for every rpm-ascending torque curve, `best_rpm` is the
rpm of a maximal-torque point, and among the points attaining the maximal
torque it is the one with the greatest rpm — the last occurrence in
ascending order, because Rust `max_by` returns the later element on ties
(the claim says the first occurrence). -/
theorem c6_best_rpm_last_max (m : Model) (p : ℚ × ℚ) (l : List (ℚ × ℚ))
    (hcurve : m.engine_torque = p :: l)
    (hs : List.Pairwise (fun a b => a.1 < b.1) (p :: l)) :
    best_point m ∈ m.engine_torque ∧
    (∀ y ∈ m.engine_torque, y.2 ≤ (best_point m).2) ∧
    (∀ y ∈ m.engine_torque, y.2 = (best_point m).2 → y.1 ≤ best_rpm m) := by
  have hbp : best_point m = l.foldl maxByStep p := by
    unfold best_point
    rw [hcurve]
  rw [hcurve, hbp, best_rpm, hbp]
  exact ⟨maxByFold_mem p l, maxByFold_le p l, maxByFold_last p l hs⟩

/-- Witness for C6 (amended): on the tied curve the selected point is a
member of the curve, its torque dominates the first point, and the tied
first point has rpm at most the selected rpm. -/
theorem c6_witness :
    best_point TIED ∈ TIED.engine_torque ∧
    (450 : ℚ) ≤ (best_point TIED).2 ∧
    (1000 : ℚ) ≤ best_rpm TIED := by
  have h := c6_best_rpm_last_max TIED (1000, 450) [(2000, 450)] rfl (by norm_num)
  exact ⟨h.1, h.2.1 (1000, 450) (by simp [TIED]),
    h.2.2 (1000, 450) (by simp [TIED]) (by norm_num [best_point, TIED, maxByStep])⟩

/-! ### C3 and C10: throttle controller -/

/-- C3: for any prior throttle in [-1, 1] and tick duration dt ≥ 0, the
ramp step sets the throttle to min(1, max(throttle, 0) + dt) under
accelerate intent, to max(-1, min(throttle, 0) - dt) under brake intent,
and to exactly 0 under roll intent; in particular, from a positive
throttle the brake ramp starts from zero (the prior positive value is
discarded). -/
theorem c3_throttle_ramp (thr dt : ℚ) (hlo : -1 ≤ thr) (hhi : thr ≤ 1)
    (hdt : 0 ≤ dt) :
    apply_throttle Throttle.Accelerate dt thr = min 1 (max thr 0 + dt) ∧
    apply_throttle Throttle.Brake dt thr = max (-1) (min thr 0 - dt) ∧
    apply_throttle Throttle.Roll dt thr = 0 ∧
    (0 < thr → apply_throttle Throttle.Brake dt thr
      = apply_throttle Throttle.Brake dt 0) := by
  refine ⟨by simp [apply_throttle, min_comm], by simp [apply_throttle, max_comm], rfl, ?_⟩
  intro hpos
  simp only [apply_throttle]
  rw [min_eq_right (le_of_lt hpos), min_self]

/-- Witness for C3 at throttle 1/2 and dt 1/4. -/
theorem c3_witness :
    apply_throttle Throttle.Accelerate (1 / 4) (1 / 2)
      = min 1 (max (1 / 2) 0 + 1 / 4) ∧
    apply_throttle Throttle.Brake (1 / 4) (1 / 2)
      = max (-1) (min (1 / 2) 0 - 1 / 4) ∧
    apply_throttle Throttle.Roll (1 / 4) (1 / 2) = 0 ∧
    apply_throttle Throttle.Brake (1 / 4) (1 / 2)
      = apply_throttle Throttle.Brake (1 / 4) 0 := by
  have h := c3_throttle_ramp (1 / 2) (1 / 4) (by norm_num) (by norm_num) (by norm_num)
  exact ⟨h.1, h.2.1, h.2.2.1, h.2.2.2 (by norm_num)⟩

/-- C10: with no pedal clicked and no bound-gamepad button pressed, holding
the up key while the throttle is already 1.0 (and the down key released)
computes intent roll, so the tick snaps the throttle from 1.0 to 0.0;
symmetrically holding the down key at throttle -1.0 (up released) snaps to
0.0. -/
theorem c10_saturated_key_roll (i : InputSnapshot) (dt : ℚ)
    (hcur : i.cursor = none) (hpa : i.padAccel = false)
    (hpb : i.padBrake = false) :
    (i.up = true → i.down = false →
      compute_intent i 1 = Throttle.Roll ∧ control_throttle_tick i dt 1 = 0) ∧
    (i.down = true → i.up = false →
      compute_intent i (-1) = Throttle.Roll ∧
      control_throttle_tick i dt (-1) = 0) := by
  constructor
  · intro hu hd
    have hint : compute_intent i 1 = Throttle.Roll := by
      simp [compute_intent, hcur, hpa, hpb, hu, hd]
    exact ⟨hint, by simp [control_throttle_tick, hint, apply_throttle]⟩
  · intro hd hu
    have hint : compute_intent i (-1) = Throttle.Roll := by
      simp [compute_intent, hcur, hpa, hpb, hu, hd]
    exact ⟨hint, by simp [control_throttle_tick, hint, apply_throttle]⟩

/-- Witness for C10: concrete input snapshots holding only the up key at
full throttle and only the down key at full brake. -/
theorem c10_witness :
    compute_intent ⟨none, true, false, true, false, false⟩ 1 = Throttle.Roll ∧
    control_throttle_tick ⟨none, true, false, true, false, false⟩ (1 / 60) 1 = 0 ∧
    compute_intent ⟨none, false, true, false, false, false⟩ (-1) = Throttle.Roll ∧
    control_throttle_tick ⟨none, false, true, false, false, false⟩ (1 / 60) (-1) = 0 := by
  have h1 := (c10_saturated_key_roll ⟨none, true, false, true, false, false⟩
    (1 / 60) rfl rfl rfl).1 rfl rfl
  have h2 := (c10_saturated_key_roll ⟨none, false, true, false, false, false⟩
    (1 / 60) rfl rfl rfl).2 rfl rfl
  exact ⟨h1.1, h1.2, h2.1, h2.2⟩

/-! ### C4 and C5: gear shifting -/

/-- C4: on a tick whose freshly recomputed rpm reaches `best_rpm` with a
higher gear available (and the shift-speed memory holding at least
gear - 1 entries, the invariant maintained from spawn), the shift phase
increments the gear, resets rpm to `min_rpm`, and records the pre-shift
speed in slot `gear_after - 2` of the shift-speed memory, leaving every
other slot unchanged. -/
theorem c4_upshift_records_speed (m : Model) (c : Car)
    (hg1 : 1 ≤ c.gear) (hgN : c.gear < m.gear_ratios.length)
    (hmb : min_rpm m ≤ best_rpm m)
    (hrpm : best_rpm m ≤ engine_rpm c m (wheel_speed c m))
    (hlen : c.gear - 1 ≤ c.speeds.length) :
    (shift_phase m c).gear = c.gear + 1 ∧
    (shift_phase m c).rpm = min_rpm m ∧
    (shift_phase m c).speeds.getD (c.gear + 1 - 2) 0 = c.speed ∧
    ∀ j, j ≠ c.gear + 1 - 2 →
      (shift_phase m c).speeds.getD j 0 = c.speeds.getD j 0 := by
  have hcond : ¬ engine_rpm c m (wheel_speed c m) < min_rpm m :=
    not_lt.mpr (le_trans hmb hrpm)
  have hshape : shift_phase m c = { c with
      rpm := min_rpm m
      gear := c.gear + 1
      speeds := if c.speeds.length < c.gear then c.speeds ++ [c.speed]
                else c.speeds.set (c.gear - 1) c.speed } := by
    unfold shift_phase
    rw [if_neg hcond, if_pos ⟨hrpm, hgN⟩]
    simp only [if_pos (show (1 : ℕ) < c.gear + 1 by omega)]
    rfl
  rw [hshape]
  rw [show c.gear + 1 - 2 = c.gear - 1 from rfl]
  refine ⟨rfl, rfl, ?_, ?_⟩
  · by_cases hlt : c.speeds.length < c.gear
    · have hex : c.speeds.length = c.gear - 1 := by omega
      rw [if_pos hlt, List.getD_eq_getElem?_getD, ← hex, List.getElem?_concat_length]
      rfl
    · rw [if_neg hlt, List.getD_eq_getElem?_getD,
        List.getElem?_set_eq_of_lt _ (show c.gear - 1 < c.speeds.length by omega)]
      rfl
  · intro j hj
    replace hj : j ≠ c.gear - 1 := hj
    by_cases hlt : c.speeds.length < c.gear
    · have hex : c.speeds.length = c.gear - 1 := by omega
      rw [if_pos hlt]
      by_cases hjl : j < c.speeds.length
      · rw [List.getD_eq_getElem?_getD, List.getD_eq_getElem?_getD,
          List.getElem?_append_left hjl]
      · rw [List.getD_eq_getElem?_getD, List.getD_eq_getElem?_getD,
          List.getElem?_eq_none (l := c.speeds ++ [c.speed])
            (by rw [List.length_append, List.length_singleton]; omega),
          List.getElem?_eq_none (by omega)]
    · rw [if_neg hlt, List.getD_eq_getElem?_getD, List.getD_eq_getElem?_getD,
        List.getElem?_set_ne (show c.gear - 1 ≠ j from fun h => hj h.symm)]

/-- Witness input for C4: first gear at speed 30 m/s, where the recomputed
rpm of the example model exceeds `best_rpm`. -/
def CW4 : Car := ⟨(1, 0), (30, 0), 30, 1, 1, 0, []⟩

/-- The example model has `best_rpm` 5000. -/
lemma best_rpm_corvette : best_rpm CORVETTE = 5000 := by
  unfold best_rpm best_point CORVETTE maxByStep
  norm_num

/-- The example model has `min_rpm` 1000. -/
lemma min_rpm_corvette : min_rpm CORVETTE = 1000 := rfl

/-- Witness for C4: the witness car upshifts to gear 2, rpm resets to
`min_rpm`, and the pre-shift speed 30 lands in slot 0. -/
theorem c4_witness :
    (shift_phase CORVETTE CW4).gear = CW4.gear + 1 ∧
    (shift_phase CORVETTE CW4).rpm = min_rpm CORVETTE ∧
    (shift_phase CORVETTE CW4).speeds.getD (CW4.gear + 1 - 2) 0 = CW4.speed := by
  have h := c4_upshift_records_speed CORVETTE CW4 (by norm_num [CW4])
    (by norm_num [CW4, CORVETTE])
    (by rw [best_rpm_corvette, min_rpm_corvette]; norm_num)
    (by rw [best_rpm_corvette]
        unfold engine_rpm wheel_speed
        norm_num [CW4, CORVETTE, PI32])
    (by norm_num [CW4])
  exact ⟨h.1, h.2.1, h.2.2.1⟩

/-- C5: after velocity integration, while braking with the brake-stop
condition not holding, a gear above first whose recorded shift speed
exceeds the current speed is decremented by exactly one (the hysteresis
round-trip partner of the upshift rule); all other state fields pass
through unchanged. -/
theorem c5_brake_downshift (c : Car) (hb : c.throttle < 0)
    (hstop : ¬(c.speed = 0 ∨ vdot c.velocity c.direction < 0))
    (hg : 1 < c.gear) (hlen : c.gear - 1 ≤ c.speeds.length)
    (hlow : c.speed < c.speeds.getD (c.gear - 2) 0) :
    (brake_phase c).gear = c.gear - 1 ∧
    (brake_phase c).speeds = c.speeds ∧
    (brake_phase c).speed = c.speed ∧
    (brake_phase c).velocity = c.velocity ∧
    (brake_phase c).throttle = c.throttle := by
  unfold brake_phase
  rw [if_pos hb, if_neg hstop, if_pos ⟨hg, by omega, hlow⟩]
  exact ⟨rfl, rfl, rfl, rfl, rfl⟩

/-- Witness input for C5: braking in gear 2 at speed 5, below the recorded
upshift speed 10. -/
def CW5 : Car := ⟨(1, 0), (5, 0), 5, -1, 2, 1200, [10]⟩

/-- Witness for C5: the witness car downshifts to gear 1 with the other
fields unchanged. -/
theorem c5_witness :
    (brake_phase CW5).gear = CW5.gear - 1 ∧
    (brake_phase CW5).speeds = CW5.speeds ∧
    (brake_phase CW5).speed = CW5.speed := by
  have h := c5_brake_downshift CW5 (by norm_num [CW5])
    (by push_neg
        constructor
        · norm_num [CW5]
        · norm_num [CW5, vdot])
    (by norm_num [CW5]) (by norm_num [CW5]) (by norm_num [CW5])
  exact ⟨h.1, h.2.1, h.2.2.1⟩

/-! ### C7: rpm range at torque lookup -/

/-- C7 (amended): the rpm with which the force computation queries the
torque table (the rpm after the clamp/upshift step, used by
`control_force` whenever throttle > 0) is always at least `min_rpm`, and
is below `best_rpm` whenever the gear after the shift step is below the
top gear; in the top gear the queried rpm can reach or exceed `best_rpm`
(the claim asserts the bound for every gear). -/
theorem c7_lookup_rpm_range (m : Model) (c : Car)
    (hmb : min_rpm m < best_rpm m) (hthr : 0 < c.throttle) :
    min_rpm m ≤ (shift_phase m c).rpm ∧
    ((shift_phase m c).gear < m.gear_ratios.length →
      (shift_phase m c).rpm < best_rpm m) := by
  unfold shift_phase
  by_cases h1 : engine_rpm c m (wheel_speed c m) < min_rpm m
  · rw [if_pos h1]
    exact ⟨le_refl _, fun _ => hmb⟩
  · rw [if_neg h1]
    by_cases h2 : best_rpm m ≤ engine_rpm c m (wheel_speed c m) ∧
        c.gear < m.gear_ratios.length
    · rw [if_pos h2]
      exact ⟨le_refl _, fun _ => hmb⟩
    · rw [if_neg h2]
      refine ⟨not_lt.mp h1, fun hgear => ?_⟩
      rcases not_and_or.mp h2 with h3 | h3
      · exact not_le.mp h3
      · exact absurd hgear h3

/-- Counterexample input for C7: the example car in top gear at 110 m/s
with positive throttle. -/
def CEX7 : Car := ⟨(1, 0), (110, 0), 110, 1, 6, 0, [10, 20, 30, 40, 50]⟩

/-- Counterexample for C7 as stated: in top gear at 110 m/s the rpm after
the shift step (the value handed to the torque lookup, since throttle is
positive) is not below `best_rpm`, so the queried rpm is not in
[min_rpm, best_rpm). -/
theorem c7_counterexample :
    0 < CEX7.throttle ∧
    ¬ (shift_phase CORVETTE CEX7).rpm < best_rpm CORVETTE := by
  constructor
  · norm_num [CEX7]
  · rw [not_lt, best_rpm_corvette]
    unfold shift_phase engine_rpm wheel_speed
    rw [best_rpm_corvette, min_rpm_corvette]
    norm_num [CEX7, CORVETTE, PI32]

/-- Witness for C7 (amended): in gear 3 at 10 m/s with positive throttle
the queried rpm is at least `min_rpm`. -/
theorem c7_witness :
    min_rpm CORVETTE ≤
      (shift_phase CORVETTE (⟨(1, 0), (10, 0), 10, 1 / 2, 3, 0, [10, 20]⟩ : Car)).rpm :=
  (c7_lookup_rpm_range CORVETTE ⟨(1, 0), (10, 0), 10, 1 / 2, 3, 0, [10, 20]⟩
    (by rw [best_rpm_corvette, min_rpm_corvette]; norm_num)
    (by norm_num)).1

/-! ### C9: zero-duration tick -/

/-- With dt = 0 the integration step leaves the velocity unchanged. -/
lemma velocity_after_zero (m : Model) (c : Car) :
    velocity_after m 0 c = c.velocity := by
  unfold velocity_after vadd vsmul
  simp

/-- C9 (amended): a zero-duration tick leaves the whole state unchanged
provided the state is a fixed point of the rpm-refresh/shift step (the
stored rpm is consistent with the current speed and gear), the cached
speed equals the norm of the velocity, and the car is not braking; the
update relation then relates the state exactly to itself.  (As stated the
claim fails: rpm and gear are recomputed regardless of dt, and the braking
branch can still reset or downshift.) -/
theorem c9_zero_dt_fixed_point (m : Model) (c : Car)
    (hfix : shift_phase m c = c)
    (hsq : c.speed * c.speed = sqnorm c.velocity)
    (hpos : 0 ≤ c.speed) (hthr : 0 ≤ c.throttle) :
    Step m 0 c c ∧ ∀ cN, Step m 0 c cN → cN = c := by
  have hva : velocity_after m 0 (shift_phase m c) = c.velocity := by
    rw [hfix, velocity_after_zero]
  have hint : integrate m 0 c c.speed = c := by
    unfold integrate
    rw [hfix]
    simp only [velocity_after_zero]
  have hbrake : brake_phase c = c := by
    unfold brake_phase
    rw [if_neg (not_lt.mpr hthr)]
  refine ⟨⟨c.speed, hpos, by rw [hva]; exact hsq, by rw [hint, hbrake]⟩, ?_⟩
  rintro cN ⟨s, hs0, hs2, hcN⟩
  have hss : s * s = c.speed * c.speed := by
    rw [hs2, hva, ← hsq]
  have hseq : s = c.speed := by
    rcases mul_self_eq_mul_self_iff.mp hss with h | h
    · exact h
    · have h0 : c.speed = 0 := le_antisymm (by linarith) hpos
      rw [h0] at h ⊢
      simpa using h
  rw [hcN, hseq, hint, hbrake]

/-- Counterexample input for C9: standing still in first gear with a stale
stored rpm of 3000. -/
def C9A : Car := ⟨(1, 0), (0, 0), 0, 0, 1, 3000, []⟩

/-- The state reached from `C9A` by a zero-duration tick: identical except
that the rpm has been recomputed (and clamped to `min_rpm`). -/
def C9B : Car := ⟨(1, 0), (0, 0), 0, 0, 1, 1000, []⟩

/-- Counterexample for C9 as stated: a zero-duration tick from `C9A`
produces `C9B`, whose rpm (1000) differs from the stored rpm (3000), so a
dt = 0 tick does not leave the rpm unchanged for every state. -/
theorem c9_counterexample : Step CORVETTE 0 C9A C9B ∧ C9B.rpm ≠ C9A.rpm := by
  have hsh : shift_phase CORVETTE C9A = C9B := by
    unfold shift_phase engine_rpm wheel_speed
    rw [min_rpm_corvette]
    norm_num [C9A, C9B, CORVETTE, PI32]
  constructor
  · refine ⟨0, le_refl 0, ?_, ?_⟩
    · rw [hsh, velocity_after_zero]
      norm_num [C9B, sqnorm]
    · unfold integrate
      rw [hsh]
      simp only [velocity_after_zero]
      unfold brake_phase
      rw [if_neg (by norm_num [C9B])]
      rfl
  · norm_num [C9A, C9B]

/-- Witness input for C9 (amended): at rest in first gear with rpm already
clamped to `min_rpm` and throttle neutral. -/
def CW9 : Car := ⟨(1, 0), (0, 0), 0, 0, 1, 1000, []⟩

/-- Witness for C9 (amended): the resting state steps to itself under a
zero-duration tick. -/
theorem c9_witness : Step CORVETTE 0 CW9 CW9 :=
  (c9_zero_dt_fixed_point CORVETTE CW9
    (by unfold shift_phase engine_rpm wheel_speed
        rw [min_rpm_corvette]
        norm_num [CW9, CORVETTE, PI32])
    (by norm_num [CW9, sqnorm])
    (by norm_num [CW9]) (by norm_num [CW9])).1

/-! ### C1: brake-stop guard and non-finite velocity -/

/-- NaN compares equal to nothing under IEEE equality. -/
lemma F32.nan_beq (x : F32) : F32.nan.beq x = false := by cases x <;> rfl

/-- NaN compares below nothing under IEEE ordering. -/
lemma F32.nan_blt (x : F32) : F32.nan.blt x = false := by cases x <;> rfl

/-- C1 (amended): when throttle < 0 after integration and the velocity
vector is non-finite (NaN, so the recomputed speed is NaN as well), the
brake-stop guard does NOT fire: `speed == 0.0` is false for a NaN speed,
the angle test is short-circuited by `!velocity.is_nan()`, and the
downshift comparison is false under IEEE ordering, so the state passes
through the braking phase unchanged and the fault propagates (the claim
asserts the guard fires and resets speed, velocity, throttle and gear). -/
theorem c1_nan_guard_passthrough (c : CarF)
    (hb : c.throttle.blt (F32.fin 0) = true)
    (hn : c.velNan = true) (hs : c.speed = F32.nan) :
    brake_phase_f32 c = c := by
  unfold brake_phase_f32
  rw [if_pos hb, if_neg (by simp [hs, hn, F32.nan_beq]),
    if_neg (by simp [hs, F32.nan_blt])]

/-- Counterexample input for C1: braking at full force with a NaN velocity
in third gear. -/
def CEX1 : CarF := ⟨(F32.fin 1, F32.fin 0), (F32.nan, F32.nan), F32.nan,
  F32.fin (-1), 3, [F32.fin 5, F32.fin 10]⟩

/-- Counterexample for C1 as stated: the premises of the claim hold
(braking, non-finite velocity), yet after the braking phase the gear is
not reset to 1, the throttle is not forced to 0, and the velocity is not
snapped to zero — the guard did not fire. -/
theorem c1_counterexample :
    CEX1.throttle.blt (F32.fin 0) = true ∧
    CEX1.velNan = true ∧
    (brake_phase_f32 CEX1).gear ≠ 1 ∧
    (brake_phase_f32 CEX1).throttle ≠ F32.fin 0 ∧
    (brake_phase_f32 CEX1).velocity ≠ (F32.fin 0, F32.fin 0) := by
  refine ⟨rfl, rfl, ?_, ?_, ?_⟩ <;>
    · rw [c1_nan_guard_passthrough CEX1 rfl rfl rfl]
      simp [CEX1]

/-- Witness input for C1 (amended): a braking state whose velocity has one
NaN component. -/
def CW1 : CarF := ⟨(F32.fin 1, F32.fin 0), (F32.fin 2, F32.nan), F32.nan,
  F32.fin (-1), 2, [F32.fin 7]⟩

/-- Witness for C1 (amended): the braking phase leaves the NaN state
unchanged. -/
theorem c1_witness : brake_phase_f32 CW1 = CW1 :=
  c1_nan_guard_passthrough CW1 rfl rfl rfl

end Carphys
